import Mathlib

/-!
Shallow embedding of `src/modified_munkres.py` (class `ReducedMunkres`), a
modified Kuhn-Munkres assignment solver with a designated virtual row
(row `n - 1`).  Costs are modelled as integers (the Python code uses exact
comparisons with `0` and subtraction of column minima only, so the claims
are insensitive to the numeric type).  Boolean numpy grids become functions
`Nat → Nat → Bool`; only indices `i < n`, `j < m` are meaningful.
-/

set_option autoImplicit false

/-- State of the solver: mirrors the fields set up by `__init__`
(`costMat`, `marked`, `starred`, `primed`, `row_covered`, `col_covered`,
`independent`, `z1_r`, `z1_c`, `rowResiduals`, `colResiduals`). -/
structure ReducedMunkres where
  n : Nat
  m : Nat
  costMat : Nat → Nat → Int
  marked : Nat → Nat → Bool
  starred : Nat → Nat → Bool
  primed : Nat → Nat → Bool
  row_covered : Nat → Bool
  col_covered : Nat → Bool
  independent : Nat → Nat → Bool
  z1_r : Option Nat
  z1_c : Option Nat
  rowResiduals : Option Unit
  colResiduals : Option Unit

namespace ReducedMunkres

/-- The state built by `__init__` before the `assert`: all marking grids and
covers false, `z1_r = z1_c = None`, residuals `None`. -/
def initState (n m : Nat) (cost : Nat → Nat → Int) : ReducedMunkres :=
  { n := n
    m := m
    costMat := cost
    marked := fun _ _ => false
    starred := fun _ _ => false
    primed := fun _ _ => false
    row_covered := fun _ => false
    col_covered := fun _ => false
    independent := fun _ _ => false
    z1_r := none
    z1_c := none
    rowResiduals := none
    colResiduals := none }

/-- Constructor `__init__`: sets up the state, then `assert self.m >= self.n - 1`
(Python int arithmetic; for `n = 0` the bound `-1` is vacuous, matching
truncated `Nat` subtraction).  An assertion failure raises before any
algorithm step runs. -/
def init (n m : Nat) (cost : Nat → Nat → Int) : Except String ReducedMunkres :=
  if n - 1 ≤ m then .ok (initState n m cost) else .error "AssertionError: m >= n - 1"

/-- Row-major enumeration order of an `n × m` numpy array, as produced by
`np.ndenumerate`. -/
def rowMajor (n m : Nat) : List (Nat × Nat) :=
  (List.range n).flatMap fun i => (List.range m).map fun j => (i, j)

/-- Guard of the loop body of `_findUncovZero`: `value == 0 and not
col_covered[j] and not row_covered[i]`. -/
def uncovZero (s : ReducedMunkres) (p : Nat × Nat) : Bool :=
  s.costMat p.1 p.2 == 0 && !s.col_covered p.2 && !s.row_covered p.1

/-- Method `_findUncovZero`: scans all cells in row-major order, overwriting
`uncov_zero` at every uncovered zero, so the last one in scan order wins. -/
def findUncovZero (s : ReducedMunkres) : Option (Nat × Nat) :=
  (rowMajor s.n s.m).foldl (fun acc p => if s.uncovZero p then some p else acc) none

/-- Method `_findStarInRow`: first starred column in `row` (`-1` becomes `none`). -/
def findStarInRow (s : ReducedMunkres) (row : Nat) : Option Nat :=
  (List.range s.m).find? fun j => s.starred row j

/-- Method `_findStarInCol`: first starred row in `col` (`-1` becomes `none`). -/
def findStarInCol (s : ReducedMunkres) (col : Nat) : Option Nat :=
  (List.range s.n).find? fun i => s.starred i col

/-- Method `_findPrimeInRow`: first primed column in `row` (`-1` becomes `none`). -/
def findPrimeInRow (s : ReducedMunkres) (row : Nat) : Option Nat :=
  (List.range s.m).find? fun j => s.primed row j

/-- Method `_isIndependent`: a cell in the virtual row `n - 1` is always
independent; otherwise the cell is independent iff no other zero of the cost
matrix lies in its row or in its column. -/
def isIndependent (s : ReducedMunkres) (pos : Nat × Nat) : Bool :=
  if pos.1 = s.n - 1 then true
  else
    !((List.range s.m).any fun j => pos.2 ≠ j && s.costMat pos.1 j == 0) &&
    !((List.range s.n).any fun i => pos.1 ≠ i && s.costMat i pos.2 == 0)

/-- Method `star`: places a star at `pos` unless another star already lies in
the same row (any column `j ≠ col` with `j < m`) or in the same column
(any row `i ≠ row` with `i < n`).  There is no virtual-row special case here. -/
def star (s : ReducedMunkres) (pos : Nat × Nat) : ReducedMunkres :=
  let rowClash := (List.range s.m).any fun j => pos.2 ≠ j && s.starred pos.1 j
  let colClash := (List.range s.n).any fun i => pos.1 ≠ i && s.starred i pos.2
  if rowClash || colClash then s
  else { s with starred := fun i j => if i = pos.1 ∧ j = pos.2 then true else s.starred i j }

/-- Method `mark`. -/
def mark (s : ReducedMunkres) (pos : Nat × Nat) : ReducedMunkres :=
  { s with marked := fun i j => if i = pos.1 ∧ j = pos.2 then true else s.marked i j }

/-- Method `prime`. -/
def prime (s : ReducedMunkres) (pos : Nat × Nat) : ReducedMunkres :=
  { s with primed := fun i j => if i = pos.1 ∧ j = pos.2 then true else s.primed i j }

/-- Method `reset`: fresh all-false `row_covered`, `col_covered` and `primed`;
every other field untouched. -/
def reset (s : ReducedMunkres) : ReducedMunkres :=
  { s with
    row_covered := fun _ => false
    col_covered := fun _ => false
    primed := fun _ _ => false }

/-- Minimum of column `j` as computed by `np.min(costMat, axis=0)`; for
`n ≥ 1` this is the least entry of rows `0 .. n - 1` of column `j` (the
initial accumulator `costMat 0 j` is also the first list element, so the
duplication is harmless). -/
def colMin (s : ReducedMunkres) (j : Nat) : Int :=
  (((List.range s.n).map fun i => s.costMat i j).foldl min (s.costMat 0 j))

/-- Method `step1`: subtracts each column minimum from the whole column and
returns `2`. -/
def step1 (s : ReducedMunkres) : ReducedMunkres × Nat :=
  ({ s with costMat := fun i j => s.costMat i j - s.colMin j }, 2)

/-- Method `step2`: visits every cell in row-major order (`np.ndenumerate` of
the cost matrix) and calls `star` on every zero-valued cell; returns `3`. -/
def step2 (s : ReducedMunkres) : ReducedMunkres × Nat :=
  ((rowMajor s.n s.m).foldl
    (fun t pos => if s.costMat pos.1 pos.2 == 0 then t.star pos else t) s, 3)

/-- Method `step3` as written in the source.  The loop header
`for _, col, starred in np.ndenumerate(self.starred)` unpacks each yielded
pair `(index, value)` — a 2-tuple — into three names, so the very first
iteration raises `ValueError: not enough values to unpack (expected 3, got 2)`.
When the array has no cells the loop body never runs and `4` is returned. -/
def step3 (s : ReducedMunkres) : Except String (ReducedMunkres × Nat) :=
  if s.n = 0 ∨ s.m = 0 then .ok (s, 4)
  else .error "ValueError: not enough values to unpack (expected 3, got 2)"

/-- Loop of method `step4`, with the final value of the local variable `step`
exposed as the second component.  Each iteration: find an uncovered zero; if
none, `done` with `step = 6`; otherwise prime it, look for a star in its row;
if none, record `Z1` and `done` with `step = 5`; else assert the star's column
is covered and the zero's row uncovered, cover the row and uncover the column,
and continue.  Fuel bounds the iterations (each pass covers a fresh row, so
`n + 1` is enough). -/
def step4Loop : Nat → ReducedMunkres → Except String (ReducedMunkres × Nat)
  | 0, _ => .error "fuel exhausted"
  | fuel + 1, s =>
    match s.findUncovZero with
    | none => .ok (s, 6)
    | some z1 =>
      let s1 : ReducedMunkres :=
        { s with primed := fun i j => if i = z1.1 ∧ j = z1.2 then true else s.primed i j }
      match s1.findStarInRow z1.1 with
      | none => .ok ({ s1 with z1_r := some z1.1, z1_c := some z1.2 }, 5)
      | some col =>
        if s1.col_covered col then
          if s1.row_covered z1.1 then .error "AssertionError: row_covered"
          else
            step4Loop fuel
              { s1 with
                row_covered := fun i => if i = z1.1 then true else s1.row_covered i
                col_covered := fun j => if j = col then false else s1.col_covered j }
        else .error "AssertionError: col_covered"

/-- Method `step4`.  The Python body assigns `step = 6` or `step = 5` to a
local variable but contains no `return` statement, so the caller receives
`None`; the second component is therefore always `none`, and the internally
computed successor step (the discarded local) is visible via `step4Loop`. -/
def step4 (s : ReducedMunkres) : Except String (ReducedMunkres × Option Nat) :=
  match step4Loop (s.n + 1) s with
  | .ok (t, _) => .ok (t, none)
  | .error e => .error e

/-- Method `step5`: its body only calls `reset`. -/
def step5 (s : ReducedMunkres) : ReducedMunkres :=
  s.reset

/-- Method `compute`: the body is `pass`, so it performs no step of the
algorithm and returns `None`. -/
def compute (_s : ReducedMunkres) : Option (Nat → Nat → Bool) :=
  none

end ReducedMunkres

/-- Concrete 2 × 2 matrix whose virtual row (row 1) is all zeros. -/
def vMat : Nat → Nat → Int := fun i _ => if i = 1 then 0 else 5

/-- Concrete 2 × 2 matrix whose top (non-virtual) row is all zeros. -/
def hMat : Nat → Nat → Int := fun i _ => if i = 0 then 0 else 5

/-- Concrete 2 × 2 matrix with a single zero, at `(0, 0)`. -/
def dMat : Nat → Nat → Int := fun i j => if i = 0 ∧ j = 0 then 0 else 5

/-- Concrete 1 × 1 matrix with no zero. -/
def cA : Nat → Nat → Int := fun _ _ => 3

/-- Concrete 1 × 1 zero matrix. -/
def cB : Nat → Nat → Int := fun _ _ => 0

/-- Pairwise exclusivity of the star grid over the whole index range: no row
has two starred entries and no column has two starred entries. -/
def StarExclusive (s : ReducedMunkres) : Prop :=
  (∀ i, i < s.n → ∀ j, j < s.m → ∀ j', j' < s.m →
    s.starred i j = true → s.starred i j' = true → j = j') ∧
  (∀ j, j < s.m → ∀ i, i < s.n → ∀ i', i' < s.n →
    s.starred i j = true → s.starred i' j = true → i = i')

set_option synthInstance.maxSize 1000 in
instance (s : ReducedMunkres) : Decidable (StarExclusive s) := by
  unfold StarExclusive
  infer_instance

open ReducedMunkres

/-! ### General list lemmas used below -/

/-- A left fold that overwrites the accumulator at every element satisfying
`P` returns the last satisfying element, falling back to the initial value. -/
theorem foldl_overwrite_eq_getLast {α : Type} (P : α → Bool) :
    ∀ (l : List α) (a : Option α),
      l.foldl (fun acc p => if P p then some p else acc) a =
        ((l.filter P).getLast?).or a := by
  intro l
  induction l using List.reverseRecOn with
  | nil => intro a; simp
  | append_singleton l x ih =>
    intro a
    rw [List.foldl_append, List.filter_append]
    cases hx : P x <;> simp [hx, ih]

/-- Membership in the row-major enumeration. -/
theorem mem_rowMajor {n m : Nat} {p : Nat × Nat} :
    p ∈ rowMajor n m ↔ p.1 < n ∧ p.2 < m := by
  obtain ⟨i, j⟩ := p
  simp [rowMajor]

/-- `_findUncovZero` returns the last uncovered zero in row-major order. -/
theorem findUncovZero_eq_getLast (s : ReducedMunkres) :
    s.findUncovZero = ((rowMajor s.n s.m).filter s.uncovZero).getLast? := by
  rw [findUncovZero, foldl_overwrite_eq_getLast]
  simp

/-! ### C1 -/

/-- C1: the driver `compute` is an empty stub (`pass`); it returns `None` on
every state — in particular it never returns an assignment matching the
`n - 1` real rows to distinct columns. -/
theorem compute_returns_none : ∀ s : ReducedMunkres, s.compute = none :=
  fun _ => rfl

/-! ### C10 -/

/-- C10: `reset` (and `step5`, whose body only calls `reset`) clears every
entry of `row_covered`, `col_covered` and `primed`, and leaves `starred`,
`costMat`, `z1_r` and `z1_c` unchanged. -/
theorem reset_frame (s : ReducedMunkres) :
    (∀ i, s.reset.row_covered i = false) ∧
    (∀ j, s.reset.col_covered j = false) ∧
    (∀ i j, s.reset.primed i j = false) ∧
    s.reset.starred = s.starred ∧
    s.reset.costMat = s.costMat ∧
    s.reset.z1_r = s.z1_r ∧
    s.reset.z1_c = s.z1_c ∧
    s.step5 = s.reset :=
  ⟨fun _ => rfl, fun _ => rfl, fun _ _ => rfl, rfl, rfl, rfl, rfl, rfl⟩

/-! ### C9 -/

/-- C9: construction fails on the constructor's assertion exactly when
`m < n - 1`, before any algorithm step executes; for `m ≥ n - 1` it returns
the freshly initialized state. -/
theorem init_assert (n m : Nat) (cost : Nat → Nat → Int) :
    (m < n - 1 → init n m cost = .error "AssertionError: m >= n - 1") ∧
    (n - 1 ≤ m → init n m cost = .ok (initState n m cost)) := by
  constructor <;> intro h
  · rw [init, if_neg (by omega)]
  · rw [init, if_pos h]

/-- Witness for C9 at `n = 3, m = 1` (failure) and `n = 2, m = 1` (success). -/
theorem init_assert_witness :
    1 < 3 - 1 ∧ 2 - 1 ≤ 1 ∧
    init 3 1 (fun _ _ => (0 : Int)) = .error "AssertionError: m >= n - 1" ∧
    init 2 1 (fun _ _ => (0 : Int)) = .ok (initState 2 1 (fun _ _ => (0 : Int))) :=
  ⟨by decide, by decide,
    (init_assert 3 1 (fun _ _ => (0 : Int))).1 (by decide),
    (init_assert 2 1 (fun _ _ => (0 : Int))).2 (by decide)⟩

/-! ### C5 -/

/-- C5: on every state whose starred grid has at least one cell, `step3`
raises immediately — the loop header unpacks each `(index, value)` pair of
`np.ndenumerate` into three names — so it never covers a column and never
returns `4`. -/
theorem step3_raises (s : ReducedMunkres) (hn : 0 < s.n) (hm : 0 < s.m) :
    s.step3 = .error "ValueError: not enough values to unpack (expected 3, got 2)" := by
  rw [step3, if_neg (by omega)]

/-- Witness for C5: the 1 × 1 zero matrix with its only cell starred. -/
theorem step3_raises_witness :
    0 < ({ initState 1 1 (fun _ _ => (0 : Int)) with
            starred := fun _ _ => true } : ReducedMunkres).n ∧
    0 < ({ initState 1 1 (fun _ _ => (0 : Int)) with
            starred := fun _ _ => true } : ReducedMunkres).m ∧
    ({ initState 1 1 (fun _ _ => (0 : Int)) with
        starred := fun _ _ => true } : ReducedMunkres).step3 =
      .error "ValueError: not enough values to unpack (expected 3, got 2)" :=
  ⟨by decide, by decide,
    step3_raises _ (by decide) (by decide)⟩

/-! ### C8 -/

/-- The loop-body guard of `_findUncovZero`, as a proposition. -/
theorem uncovZero_iff (s : ReducedMunkres) (i j : Nat) :
    s.uncovZero (i, j) = true ↔
      (s.costMat i j = 0 ∧ s.col_covered j = false ∧ s.row_covered i = false) := by
  simp [uncovZero, and_assoc]

/-- C8: `_findUncovZero` returns `none` exactly when no cell is an uncovered
zero, and otherwise returns the last uncovered zero in row-major scan order. -/
theorem findUncovZero_claim (s : ReducedMunkres) :
    (s.findUncovZero = none ↔
      ∀ i, i < s.n → ∀ j, j < s.m →
        ¬(s.costMat i j = 0 ∧ s.col_covered j = false ∧ s.row_covered i = false)) ∧
    s.findUncovZero = ((rowMajor s.n s.m).filter s.uncovZero).getLast? := by
  refine ⟨?_, findUncovZero_eq_getLast s⟩
  rw [findUncovZero_eq_getLast s, List.getLast?_eq_none_iff, List.filter_eq_nil_iff]
  constructor
  · intro h i hi j hj hc
    exact h (i, j) (mem_rowMajor.mpr ⟨hi, hj⟩) ((uncovZero_iff s i j).mpr hc)
  · intro h p hp hu
    obtain ⟨i, j⟩ := p
    exact h i (mem_rowMajor.mp hp).1 j (mem_rowMajor.mp hp).2 ((uncovZero_iff s i j).mp hu)

/-! ### Minimum lemmas for step 1 -/

/-- A fold of `min` is bounded by its initial value. -/
theorem foldl_min_le_init : ∀ (l : List Int) (a : Int), l.foldl min a ≤ a := by
  intro l
  induction l with
  | nil => intro a; exact le_refl a
  | cons x l ih =>
    intro a
    exact le_trans (ih (min a x)) (min_le_left a x)

/-- A fold of `min` is bounded by every list element. -/
theorem foldl_min_le_mem :
    ∀ (l : List Int) (a x : Int), x ∈ l → l.foldl min a ≤ x := by
  intro l
  induction l with
  | nil => intro a x hx; cases hx
  | cons y l ih =>
    intro a x hx
    rcases List.mem_cons.mp hx with rfl | h
    · exact le_trans (foldl_min_le_init l (min a x)) (min_le_right a x)
    · exact ih (min a y) x h

/-- A fold of `min` is the initial value or one of the list elements. -/
theorem foldl_min_eq_init_or_mem :
    ∀ (l : List Int) (a : Int), l.foldl min a = a ∨ l.foldl min a ∈ l := by
  intro l
  induction l with
  | nil => intro a; exact Or.inl rfl
  | cons x l ih =>
    intro a
    rcases ih (min a x) with h | h
    · rw [List.foldl_cons, h]
      rcases min_choice a x with h2 | h2
      · exact Or.inl h2
      · exact Or.inr (by rw [h2]; exact List.mem_cons_self x l)
    · exact Or.inr (List.mem_cons_of_mem x h)

/-- Folding `min` commutes with subtracting a constant. -/
theorem foldl_min_sub :
    ∀ (l : List Int) (a c : Int),
      (l.map fun x => x - c).foldl min (a - c) = l.foldl min a - c := by
  intro l
  induction l with
  | nil => intro a c; rfl
  | cons x l ih =>
    intro a c
    simp only [List.map_cons, List.foldl_cons]
    rw [min_sub_sub_right]
    exact ih (min a x) c

/-- The column minimum is a lower bound on the column. -/
theorem colMin_le (s : ReducedMunkres) (i j : Nat) (hi : i < s.n) :
    s.colMin j ≤ s.costMat i j :=
  foldl_min_le_mem _ _ _ (List.mem_map.mpr ⟨i, List.mem_range.mpr hi, rfl⟩)

/-- The column minimum is attained in the column when `n ≥ 1`. -/
theorem colMin_mem (s : ReducedMunkres) (j : Nat) (hn : 0 < s.n) :
    ∃ i, i < s.n ∧ s.costMat i j = s.colMin j := by
  rcases foldl_min_eq_init_or_mem ((List.range s.n).map fun i => s.costMat i j)
      (s.costMat 0 j) with h | h
  · exact ⟨0, hn, h.symm⟩
  · obtain ⟨i, hi, hEq⟩ := List.mem_map.mp h
    exact ⟨i, List.mem_range.mp hi, hEq⟩

/-! ### C6 -/

/-- C6: for a non-empty matrix of non-negative entries, `step1` subtracts each
column's minimum from every entry of that column; afterwards every column has
a zero, no entry is negative, and `step1` returns `2`. -/
theorem step1_claim (s : ReducedMunkres) (hn : 0 < s.n)
    (_hpos : ∀ i, i < s.n → ∀ j, j < s.m → 0 ≤ s.costMat i j) :
    (∀ i, i < s.n → ∀ j, j < s.m →
      s.step1.1.costMat i j = s.costMat i j - s.colMin j) ∧
    (∀ j, j < s.m → ∃ i, i < s.n ∧ s.step1.1.costMat i j = 0) ∧
    (∀ i, i < s.n → ∀ j, j < s.m → 0 ≤ s.step1.1.costMat i j) ∧
    s.step1.2 = 2 := by
  refine ⟨fun i _ j _ => rfl, ?_, ?_, rfl⟩
  · intro j _
    obtain ⟨i, hi, hEq⟩ := colMin_mem s j hn
    exact ⟨i, hi, by simp [step1, hEq]⟩
  · intro i hi j _
    have h := colMin_le s i j hi
    simpa [step1] using sub_nonneg.mpr h

/-- Witness for C6 on the 2 × 2 matrix with rows `(1, 0)` and `(3, 2)`. -/
theorem step1_claim_witness :
    0 < 2 ∧
    (∀ i, i < 2 → ∀ j, j < 2 →
      (0 : Int) ≤ (initState 2 2 fun i j => (2 * i + 1 - j : Int)).costMat i j) ∧
    (∀ j, j < 2 → ∃ i, i < 2 ∧
      (initState 2 2 fun i j => (2 * i + 1 - j : Int)).step1.1.costMat i j = 0) :=
  ⟨by decide, by decide,
    (step1_claim (initState 2 2 fun i j => (2 * i + 1 - j : Int))
      (by decide) (by decide)).2.1⟩

/-! ### C7 -/

/-- After `step1`, every column minimum is `0`. -/
theorem colMin_step1 (s : ReducedMunkres) (j : Nat) :
    s.step1.1.colMin j = 0 := by
  show (((List.range s.n).map fun i => s.costMat i j - s.colMin j).foldl min
      (s.costMat 0 j - s.colMin j)) = 0
  rw [show ((List.range s.n).map fun i => s.costMat i j - s.colMin j) =
      (((List.range s.n).map fun i => s.costMat i j).map fun x => x - s.colMin j) by
    simp [List.map_map]]
  rw [foldl_min_sub]
  exact sub_self (s.colMin j)

/-- C7: column reduction is idempotent — if every column minimum is already
`0`, `step1` leaves the cost matrix unchanged, and running `step1` twice gives
the same matrix as running it once. -/
theorem step1_idempotent (s : ReducedMunkres) (_hn : 0 < s.n) :
    ((∀ j, j < s.m → s.colMin j = 0) →
      ∀ i, i < s.n → ∀ j, j < s.m → s.step1.1.costMat i j = s.costMat i j) ∧
    (∀ i j, s.step1.1.step1.1.costMat i j = s.step1.1.costMat i j) := by
  constructor
  · intro h i _ j hj
    show s.costMat i j - s.colMin j = s.costMat i j
    rw [h j hj, sub_zero]
  · intro i j
    show s.step1.1.costMat i j - s.step1.1.colMin j = s.step1.1.costMat i j
    rw [colMin_step1, sub_zero]

/-- Witness for C7 on a 2 × 2 matrix whose columns already have minimum `0`. -/
theorem step1_idempotent_witness :
    0 < 2 ∧
    (∀ j, j < 2 → (initState 2 2 fun i j => (2 * i * j : Int)).colMin j = 0) ∧
    (∀ i, i < 2 → ∀ j, j < 2 →
      (initState 2 2 fun i j => (2 * i * j : Int)).step1.1.costMat i j =
        (initState 2 2 fun i j => (2 * i * j : Int)).costMat i j) ∧
    (∀ i j, (initState 2 2 fun i j => (2 * i * j : Int)).step1.1.step1.1.costMat i j =
      (initState 2 2 fun i j => (2 * i * j : Int)).step1.1.costMat i j) :=
  ⟨by decide, by decide,
    (step1_idempotent (initState 2 2 fun i j => (2 * i * j : Int)) (by decide)).1 (by decide),
    (step1_idempotent (initState 2 2 fun i j => (2 * i * j : Int)) (by decide)).2⟩

/-! ### C2 -/

/-- The shape fields are untouched by `star`. -/
theorem star_n (s : ReducedMunkres) (pos : Nat × Nat) : (s.star pos).n = s.n := by
  unfold ReducedMunkres.star
  simp only []
  split <;> rfl

/-- The shape fields are untouched by `star`. -/
theorem star_m (s : ReducedMunkres) (pos : Nat × Nat) : (s.star pos).m = s.m := by
  unfold ReducedMunkres.star
  simp only []
  split <;> rfl

/-- If another star already sits in the row of `pos` (any row, the virtual row
included), `star` refuses to place a star. -/
theorem star_of_rowClash (s : ReducedMunkres) (pos : Nat × Nat) (j : Nat)
    (hj : j < s.m) (hne : j ≠ pos.2) (hst : s.starred pos.1 j = true) :
    s.star pos = s := by
  have hrc : ((List.range s.m).any fun j => decide (pos.2 ≠ j) && s.starred pos.1 j) = true :=
    List.any_eq_true.mpr ⟨j, List.mem_range.mpr hj, by
      rw [hst, Bool.and_true]
      exact decide_eq_true (Ne.symm hne)⟩
  unfold ReducedMunkres.star
  rw [hrc]
  simp

/-- If another star already sits in the column of `pos`, `star` refuses to
place a star. -/
theorem star_of_colClash (s : ReducedMunkres) (pos : Nat × Nat) (i : Nat)
    (hi : i < s.n) (hne : i ≠ pos.1) (hst : s.starred i pos.2 = true) :
    s.star pos = s := by
  have hcc : ((List.range s.n).any fun i => decide (pos.1 ≠ i) && s.starred i pos.2) = true :=
    List.any_eq_true.mpr ⟨i, List.mem_range.mpr hi, by
      rw [hst, Bool.and_true]
      exact decide_eq_true (Ne.symm hne)⟩
  unfold ReducedMunkres.star
  rw [hcc]
  simp

/-- A cell starred after `star` was either starred before or is the starred
position itself. -/
theorem star_starred_le (s : ReducedMunkres) (pos : Nat × Nat) (i j : Nat)
    (h : (s.star pos).starred i j = true) :
    s.starred i j = true ∨ (i = pos.1 ∧ j = pos.2) := by
  by_cases e : i = pos.1 ∧ j = pos.2
  · exact Or.inr e
  · left
    unfold ReducedMunkres.star at h
    simp only [] at h
    split at h
    · exact h
    · simpa [e] using h

/-- C2 (amended): `star` enforces row- and column-exclusivity for every row,
the virtual row included: it preserves the invariant that no row and no
column holds two stars.  In particular two zero cells of the virtual row can
never both be starred through `star` (refuting the claimed virtual-row
exemption for `star`, which lives only in the unused `_isIndependent`). -/
theorem star_exclusive_claim (s : ReducedMunkres) (pos : Nat × Nat)
    (hex : StarExclusive s) :
    StarExclusive (s.star pos) := by
  constructor
  · intro i hi j hj j' hj' hs1 hs2
    rw [star_n] at hi
    rw [star_m] at hj hj'
    rcases star_starred_le s pos i j hs1 with o1 | n1
    · rcases star_starred_le s pos i j' hs2 with o2 | n2
      · exact hex.1 i hi j hj j' hj' o1 o2
      · by_cases ejj : j = pos.2
        · rw [ejj, n2.2]
        · have hres : s.star pos = s := star_of_rowClash s pos j hj ejj (n2.1 ▸ o1)
          rw [hres] at hs2
          exact hex.1 i hi j hj j' hj' o1 hs2
    · rcases star_starred_le s pos i j' hs2 with o2 | n2
      · by_cases ejj : j' = pos.2
        · rw [n1.2, ejj]
        · have hres : s.star pos = s := star_of_rowClash s pos j' hj' ejj (n1.1 ▸ o2)
          rw [hres] at hs1
          exact hex.1 i hi j hj j' hj' hs1 o2
      · rw [n1.2, n2.2]
  · intro j hj i hi i' hi' hs1 hs2
    rw [star_m] at hj
    rw [star_n] at hi hi'
    rcases star_starred_le s pos i j hs1 with o1 | n1
    · rcases star_starred_le s pos i' j hs2 with o2 | n2
      · exact hex.2 j hj i hi i' hi' o1 o2
      · by_cases eii : i = pos.1
        · rw [eii, n2.1]
        · have hres : s.star pos = s := star_of_colClash s pos i hi eii (n2.2 ▸ o1)
          rw [hres] at hs2
          exact hex.2 j hj i hi i' hi' o1 hs2
    · rcases star_starred_le s pos i' j hs2 with o2 | n2
      · by_cases eii : i' = pos.1
        · rw [n1.1, eii]
        · have hres : s.star pos = s := star_of_colClash s pos i' hi' eii (n1.2 ▸ o2)
          rw [hres] at hs1
          exact hex.2 j hj i hi i' hi' hs1 o2
      · rw [n1.1, n2.1]

/-- Witness for C2 (amended): starring inside a 2 × 2 state preserves the
invariant. -/
theorem star_exclusive_claim_witness :
    StarExclusive (initState 2 2 vMat) ∧
    StarExclusive ((initState 2 2 vMat).star (1, 0)) :=
  ⟨by decide, star_exclusive_claim (initState 2 2 vMat) (1, 0) (by decide)⟩

/-- C2 counterexample: on `vMat` the virtual row (row 1 = `n - 1`) has
zero-cost cells in both columns, yet after `star (1,0)` succeeds, `star (1,1)`
refuses — the two virtual-row cells cannot both become starred. -/
theorem star_virtual_counterexample :
    vMat 1 0 = 0 ∧ vMat 1 1 = 0 ∧
    (initState 2 2 vMat).n - 1 = 1 ∧
    ((initState 2 2 vMat).star (1, 0)).starred 1 0 = true ∧
    (((initState 2 2 vMat).star (1, 0)).star (1, 1)).starred 1 1 = false := by
  refine ⟨rfl, rfl, rfl, ?_, ?_⟩ <;> decide

/-- Pointwise characterization of an `any` over `List.range` being false. -/
theorem any_range_eq_false {m : Nat} {f : Nat → Bool} :
    (List.range m).any f = false ↔ ∀ j, j < m → f j = false := by
  constructor
  · intro h j hj
    cases hfj : f j with
    | false => rfl
    | true =>
      have ha : (List.range m).any f = true :=
        List.any_eq_true.mpr ⟨j, List.mem_range.mpr hj, hfj⟩
      rw [h] at ha
      exact Bool.noConfusion ha
  · intro h
    cases hany : (List.range m).any f with
    | false => rfl
    | true =>
      obtain ⟨j, hj, hfj⟩ := List.any_eq_true.mp hany
      rw [h j (List.mem_range.mp hj)] at hfj
      exact Bool.noConfusion hfj

/-! ### C3 -/

/-- C3 counterexample: on `hMat` (top row all zeros), `step2` stars cell
`(0, 0)` even though `_isIndependent` rejects it (there is another zero in
row 0) — so `step2` does not star via the independence test. -/
theorem step2_counterexample :
    (initState 2 2 hMat).step2.1.starred 0 0 = true ∧
    (initState 2 2 hMat).isIndependent (0, 0) = false := by
  constructor <;> decide

/-- C3 (amended): `step2` visits every cell in row-major order and attempts to
star each zero via `star`, which tests the current star pattern — it never
calls `_isIndependent`.  The independence test itself behaves as claimed:
virtual-row cells are always independent, and a non-virtual cell is
independent iff no other zero of the raw matrix lies in its row or column.
Any cell newly starred by `step2` is a zero of the cost matrix. -/
theorem step2_claim (s : ReducedMunkres) :
    (∀ r, r < s.n → ∀ c, c < s.m →
      (s.isIndependent (r, c) = true ↔
        (r = s.n - 1 ∨
          ((∀ j, j < s.m → j ≠ c → s.costMat r j ≠ 0) ∧
           (∀ i, i < s.n → i ≠ r → s.costMat i c ≠ 0))))) ∧
    (∀ r c, s.step2.1.starred r c = true →
      s.starred r c = true ∨ s.costMat r c = 0) := by
  constructor
  · intro r _ c _
    unfold ReducedMunkres.isIndependent
    by_cases hv : r = s.n - 1
    · simp [hv]
    · simp only [if_neg hv]
      rw [Bool.and_eq_true, Bool.not_eq_true', Bool.not_eq_true',
        any_range_eq_false, any_range_eq_false]
      constructor
      · rintro ⟨h1, h2⟩
        refine Or.inr ⟨?_, ?_⟩
        · intro j hj hne heq
          have hb := h1 j hj
          rw [decide_eq_true (Ne.symm hne), Bool.true_and] at hb
          exact beq_eq_false_iff_ne.mp hb heq
        · intro i hi hne heq
          have hb := h2 i hi
          rw [decide_eq_true (Ne.symm hne), Bool.true_and] at hb
          exact beq_eq_false_iff_ne.mp hb heq
      · rintro (hv' | ⟨h1, h2⟩)
        · exact absurd hv' hv
        · constructor
          · intro j hj
            by_cases hjc : j = c
            · subst hjc; simp
            · rw [beq_eq_false_iff_ne.mpr (h1 j hj hjc), Bool.and_false]
          · intro i hi
            by_cases hir : i = r
            · subst hir; simp
            · rw [beq_eq_false_iff_ne.mpr (h2 i hi hir), Bool.and_false]
  · intro r c h
    suffices H : ∀ (l : List (Nat × Nat)) (t : ReducedMunkres),
        (l.foldl (fun t pos => if s.costMat pos.1 pos.2 == 0 then t.star pos else t)
            t).starred r c = true →
        t.starred r c = true ∨ s.costMat r c = 0 by
      exact H (rowMajor s.n s.m) s h
    intro l
    induction l with
    | nil => intro t ht; exact Or.inl ht
    | cons p l ih =>
      intro t ht
      rw [List.foldl_cons] at ht
      rcases ih _ ht with h1 | h1
      · by_cases hz : (s.costMat p.1 p.2 == 0) = true
        · rw [if_pos hz] at h1
          rcases star_starred_le t p r c h1 with h2 | h2
          · exact Or.inl h2
          · right
            rw [h2.1, h2.2]
            exact beq_iff_eq.mp hz
        · rw [if_neg hz] at h1
          exact Or.inl h1
      · exact Or.inr h1

/-- Witness for C3 (amended) on `dMat` at cell `(0, 0)`. -/
theorem step2_claim_witness :
    (0 : Nat) < 2 ∧
    ((initState 2 2 dMat).isIndependent (0, 0) = true ↔
      ((0 : Nat) = 2 - 1 ∨
        ((∀ j, j < 2 → j ≠ 0 → dMat 0 j ≠ 0) ∧
         (∀ i, i < 2 → i ≠ 0 → dMat i 0 ≠ 0)))) ∧
    ((initState 2 2 dMat).starred 0 0 = true ∨ dMat 0 0 = 0) :=
  ⟨by decide,
    (step2_claim (initState 2 2 dMat)).1 0 (by decide) 0 (by decide),
    (step2_claim (initState 2 2 dMat)).2 0 0 (by decide)⟩

/-! ### C4 -/

/-- C4: on a state with no uncovered zero (`cA`), and on a state whose
uncovered zero has no star in its row (`cB`), `step4` records everything the
claim describes internally — the loop's local `step` variable is `6`
respectively `5`, and `Z1` is recorded in the second case — but the method
returns `None` (second component `none`), because the Python body never
returns the local variable. -/
theorem step4_claim :
    step4 (initState 1 1 cA) = .ok (initState 1 1 cA, none) ∧
    step4Loop 2 (initState 1 1 cA) = .ok (initState 1 1 cA, 6) ∧
    (∃ t, step4 (initState 1 1 cB) = .ok (t, none) ∧
      step4Loop 2 (initState 1 1 cB) = .ok (t, 5) ∧
      t.z1_r = some 0 ∧ t.z1_c = some 0 ∧ t.primed 0 0 = true) := by
  refine ⟨rfl, rfl, _, rfl, rfl, rfl, rfl, ?_⟩
  decide
